import Mathlib

/-!
Verification of the composite container library demonstrated by
`collections_module.py` and `decorators.py`.

Python dicts are modelled as association lists in insertion order (Python
dicts preserve insertion order); each stdlib container used by the source
(`ChainMap`, `Counter`, `defaultdict`, `OrderedDict`, `deque`, `namedtuple`)
is embedded by its documented operational semantics at the source's call
sites.
-/

namespace PyColl

/-- Python dict lookup `d[k]` on the association-list model of a dict:
the value at the first entry whose key matches, `none` for a `KeyError`. -/
def alookup {K V : Type} [DecidableEq K] (k : K) : List (K × V) → Option V
  | [] => none
  | p :: t => if p.1 = k then some p.2 else alookup k t

/-- Python dict assignment `d[k] = v`: replaces the value in place when the
key is present (keeping its position), otherwise appends the new key at the
end, matching dict insertion-order semantics. -/
def setKey {K V : Type} [DecidableEq K] (k : K) (v : V) : List (K × V) → List (K × V)
  | [] => [(k, v)]
  | p :: t => if p.1 = k then (p.1, v) :: t else p :: setKey k v t

theorem alookup_setKey_self {K V : Type} [DecidableEq K] (k : K) (v : V) (l : List (K × V)) :
    alookup k (setKey k v l) = some v := by
  induction l with
  | nil => simp [setKey, alookup]
  | cons p t ih =>
    by_cases h : p.1 = k
    · simp [setKey, h, alookup]
    · simp [setKey, h, alookup, ih]

/-! ## LayeredLookupMap (`ChainMap`, exercised by `combine_configs`) -/

/-- `ChainMap` lookup: layers are searched in index order and the first hit
wins; `none` models the `KeyError` when no layer has the key. -/
def lookupLayers {K V : Type} [DecidableEq K] (k : K) : List (List (K × V)) → Option V
  | [] => none
  | l :: ls =>
    match alookup k l with
    | some v => some v
    | none => lookupLayers k ls

/-- `ChainMap.__setitem__`: writes always go to the first mapping, other
layers are untouched. -/
def cmSet {K V : Type} [DecidableEq K] (k : K) (v : V) :
    List (List (K × V)) → List (List (K × V))
  | [] => [[(k, v)]]
  | l :: ls => setKey k v l :: ls

/-- The source's `defaults` dict: `theme` maps to `light`, `language` to
`English`. -/
def defaultsCfg : List (String × String) := [("theme", "light"), ("language", "English")]

/-- The source's `overrides` dict: `theme` maps to `dark`. -/
def overridesCfg : List (String × String) := [("theme", "dark")]

/-- `combine_configs(user, default)` returns `ChainMap(user, default)`:
the ordered layer list `[user, default]`. -/
def combine_configs {K V : Type} (user default : List (K × V)) :
    List (List (K × V)) := [user, default]

theorem lookupLayers_eq_none {K V : Type} [DecidableEq K]
    (layers : List (List (K × V))) (k : K)
    (h : ∀ l ∈ layers, alookup k l = none) : lookupLayers k layers = none := by
  induction layers with
  | nil => rfl
  | cons l ls ih =>
    have h0 : alookup k l = none := h l (List.mem_cons_self l ls)
    simp [lookupLayers, h0]
    exact ih fun m hm => h m (List.mem_cons_of_mem l hm)

/-- C1: on `combine_configs(overrides, defaults)` the lookup searches layers
in index order and the first hit wins: `theme` resolves to `dark` (layer 0)
and `language` to `English` (layer 1); and for every layered map, a key
present in no layer fails with `KeyNotFoundError` (modelled as `none`). -/
theorem c1_layered_get_first_hit :
    (lookupLayers "theme" (combine_configs overridesCfg defaultsCfg) = some "dark"
      ∧ lookupLayers "language" (combine_configs overridesCfg defaultsCfg) = some "English")
    ∧ ∀ (layers : List (List (String × String))) (k : String),
        (∀ l ∈ layers, alookup k l = none) → lookupLayers k layers = none := by
  refine ⟨⟨by decide, by decide⟩, ?_⟩
  intro layers k h
  exact lookupLayers_eq_none layers k h

/-- Witness for C1: the key `missing` is in no layer of the example map, and
the lookup indeed fails. -/
theorem c1_witness :
    lookupLayers "missing" (combine_configs overridesCfg defaultsCfg) = none :=
  c1_layered_get_first_hit.2 (combine_configs overridesCfg defaultsCfg) "missing" (by decide)

/-- C2: a `ChainMap` write goes to layer 0 only: for every layered map the
updated map is `setKey` on layer 0 with every other layer unchanged, and a
re-read of the written key returns the new value; on the two-layer example,
after `set "theme" "blue"` the re-read gives `blue` while the second layer's
`theme` entry still holds `light`. -/
theorem c2_layered_set_writes_top {K V : Type} [DecidableEq K]
    (l : List (K × V)) (ls : List (List (K × V))) (k : K) (v : V) :
    (cmSet k v (l :: ls) = setKey k v l :: ls
      ∧ lookupLayers k (cmSet k v (l :: ls)) = some v)
    ∧ (lookupLayers "theme"
          (cmSet "theme" "blue" (combine_configs overridesCfg defaultsCfg)) = some "blue"
      ∧ (cmSet "theme" "blue" (combine_configs overridesCfg defaultsCfg)).tail = [defaultsCfg]
      ∧ alookup "theme" defaultsCfg = some "light") := by
  refine ⟨⟨rfl, ?_⟩, by decide, by decide, by decide⟩
  simp [cmSet, lookupLayers, alookup_setKey_self]

/-! ## FrequencyCounter (`Counter`, exercised by `analyze_frequencies`) -/

/-- One step of `Counter(data)` construction, `c[x] += 1`: increments the
existing entry in place when `x` is already counted, otherwise appends
`(x, 1)` at the end (dict insertion order keeps entries in first-occurrence
order). -/
def bump {α : Type} [DecidableEq α] : List (α × Nat) → α → List (α × Nat)
  | [], x => [(x, 1)]
  | p :: t, x => if p.1 = x then (p.1, p.2 + 1) :: t else p :: bump t x

/-- `Counter(data).items()`: element/count pairs, counts accumulated by a
single scan, entries in first-occurrence order. -/
def counterItems {α : Type} [DecidableEq α] (data : List α) : List (α × Nat) :=
  data.foldl bump []

/-- Insertion step of the stable count-descending sort performed by
`Counter.most_common` (`sorted(items, key=count, reverse=True)` is stable:
an element goes in front of the first entry whose count does not exceed
its own, so earlier entries win ties). -/
def insertDesc {α : Type} (p : α × Nat) : List (α × Nat) → List (α × Nat)
  | [] => [p]
  | q :: t => if q.2 ≤ p.2 then p :: q :: t else q :: insertDesc p t

/-- Stable sort of counter items by count descending. -/
def sortDesc {α : Type} : List (α × Nat) → List (α × Nat)
  | [] => []
  | p :: t => insertDesc p (sortDesc t)

/-- `Counter(data).most_common(k)`: the `k` highest-count element/count
pairs, count descending, ties kept in first-occurrence order. -/
def mostCommon {α : Type} [DecidableEq α] (k : Nat) (data : List α) : List (α × Nat) :=
  (sortDesc (counterItems data)).take k

/-- The elements of `data` in order of first occurrence. -/
def firstOccs {α : Type} [DecidableEq α] (data : List α) : List α :=
  data.foldl (fun acc x => if x ∈ acc then acc else acc ++ [x]) []

theorem mem_insertDesc {α : Type} {b p : α × Nat} (l : List (α × Nat)) :
    b ∈ insertDesc p l → b = p ∨ b ∈ l := by
  induction l with
  | nil =>
    intro h
    simpa [insertDesc] using h
  | cons q t ih =>
    intro h
    by_cases hq : q.2 ≤ p.2
    · simpa [insertDesc, hq, or_assoc] using h
    · rw [insertDesc, if_neg hq, List.mem_cons] at h
      rcases h with h1 | h1
      · exact Or.inr (by simp [h1])
      · rcases ih h1 with h2 | h2
        · exact Or.inl h2
        · exact Or.inr (List.mem_cons_of_mem q h2)

theorem sorted_insertDesc {α : Type} (p : α × Nat) (l : List (α × Nat)) :
    List.Sorted (fun a b : α × Nat => b.2 ≤ a.2) l →
      List.Sorted (fun a b : α × Nat => b.2 ≤ a.2) (insertDesc p l) := by
  induction l with
  | nil =>
    intro _
    simp [insertDesc]
  | cons q t ih =>
    intro h
    rw [List.sorted_cons] at h
    by_cases hq : q.2 ≤ p.2
    · rw [insertDesc, if_pos hq, List.sorted_cons]
      refine ⟨?_, List.sorted_cons.mpr h⟩
      intro b hb
      rcases List.mem_cons.mp hb with hb | hb
      · simpa [hb] using hq
      · exact le_trans (h.1 b hb) hq
    · rw [insertDesc, if_neg hq, List.sorted_cons]
      refine ⟨?_, ih h.2⟩
      intro b hb
      rcases mem_insertDesc t hb with hb | hb
      · simpa [hb] using le_of_not_le hq
      · exact h.1 b hb

theorem sorted_sortDesc {α : Type} (l : List (α × Nat)) :
    List.Sorted (fun a b : α × Nat => b.2 ≤ a.2) (sortDesc l) := by
  induction l with
  | nil => simp [sortDesc]
  | cons p t ih => exact sorted_insertDesc p (sortDesc t) ih

theorem filter_insertDesc {α : Type} (c : Nat) (p : α × Nat) (l : List (α × Nat)) :
    (insertDesc p l).filter (fun q => decide (q.2 = c))
      = (if p.2 = c then [p] else []) ++ l.filter (fun q => decide (q.2 = c)) := by
  induction l with
  | nil =>
    by_cases hc : p.2 = c <;> simp [insertDesc, hc]
  | cons q t ih =>
    by_cases hq : q.2 ≤ p.2
    · rw [insertDesc, if_pos hq]
      by_cases hc : p.2 = c <;> simp [List.filter_cons, hc]
    · rw [insertDesc, if_neg hq, List.filter_cons]
      by_cases hqc : q.2 = c
      · have hpc : ¬ p.2 = c := by omega
        simp [List.filter_cons, hqc, hpc, ih]
      · simp [List.filter_cons, hqc, ih]

theorem filter_sortDesc {α : Type} (c : Nat) (l : List (α × Nat)) :
    (sortDesc l).filter (fun q => decide (q.2 = c))
      = l.filter (fun q => decide (q.2 = c)) := by
  induction l with
  | nil => rfl
  | cons p t ih =>
    by_cases hc : p.2 = c <;>
      simp [sortDesc, filter_insertDesc, hc, ih]

theorem length_insertDesc {α : Type} (p : α × Nat) (l : List (α × Nat)) :
    (insertDesc p l).length = l.length + 1 := by
  induction l with
  | nil => rfl
  | cons q t ih =>
    by_cases hq : q.2 ≤ p.2 <;> simp [insertDesc, hq, ih]

theorem length_sortDesc {α : Type} (l : List (α × Nat)) :
    (sortDesc l).length = l.length := by
  induction l with
  | nil => rfl
  | cons p t ih => simp [sortDesc, length_insertDesc, ih]

theorem map_fst_bump {α : Type} [DecidableEq α] (acc : List (α × Nat)) (x : α) :
    (bump acc x).map Prod.fst
      = if x ∈ acc.map Prod.fst then acc.map Prod.fst else acc.map Prod.fst ++ [x] := by
  induction acc with
  | nil => simp [bump]
  | cons p t ih =>
    by_cases hp : p.1 = x
    · simp [bump, hp]
    · by_cases hx : x ∈ t.map Prod.fst
      · simp [bump, hp, hx, ih, Ne.symm hp]
      · simp [bump, hp, hx, ih, Ne.symm hp]

theorem map_fst_counterItems_aux {α : Type} [DecidableEq α]
    (data : List α) (acc : List (α × Nat)) :
    (data.foldl bump acc).map Prod.fst
      = data.foldl (fun a x => if x ∈ a then a else a ++ [x]) (acc.map Prod.fst) := by
  induction data generalizing acc with
  | nil => rfl
  | cons x t ih =>
    simp only [List.foldl_cons]
    rw [ih, map_fst_bump]

/-- The keys of `Counter(data)` are exactly the elements of `data` in
first-occurrence order. -/
theorem map_fst_counterItems {α : Type} [DecidableEq α] (data : List α) :
    (counterItems data).map Prod.fst = firstOccs data :=
  map_fst_counterItems_aux data []

theorem mem_firstOccs_aux {α : Type} [DecidableEq α]
    (data : List α) (acc : List α) (y : α) :
    (y ∈ data.foldl (fun a x => if x ∈ a then a else a ++ [x]) acc)
      ↔ y ∈ acc ∨ y ∈ data := by
  induction data generalizing acc with
  | nil => simp
  | cons x t ih =>
    simp only [List.foldl_cons]
    by_cases hx : x ∈ acc
    · rw [if_pos hx, ih]
      constructor
      · rintro (h | h)
        · exact Or.inl h
        · exact Or.inr (List.mem_cons_of_mem x h)
      · rintro (h | h)
        · exact Or.inl h
        · rcases List.mem_cons.mp h with h | h
          · exact Or.inl (h ▸ hx)
          · exact Or.inr h
    · rw [if_neg hx, ih]
      simp [List.mem_cons, or_comm, or_assoc, or_left_comm]

theorem nodup_firstOccs_aux {α : Type} [DecidableEq α]
    (data : List α) (acc : List α) (hacc : acc.Nodup) :
    (data.foldl (fun a x => if x ∈ a then a else a ++ [x]) acc).Nodup := by
  induction data generalizing acc with
  | nil => exact hacc
  | cons x t ih =>
    simp only [List.foldl_cons]
    by_cases hx : x ∈ acc
    · rw [if_pos hx]; exact ih acc hacc
    · rw [if_neg hx]
      refine ih _ ?_
      simp [List.nodup_append, hacc, hx]

theorem nodup_firstOccs {α : Type} [DecidableEq α] (data : List α) :
    (firstOccs data).Nodup :=
  nodup_firstOccs_aux data [] List.nodup_nil

theorem mem_firstOccs {α : Type} [DecidableEq α] (data : List α) (y : α) :
    y ∈ firstOccs data ↔ y ∈ data := by
  rw [firstOccs, mem_firstOccs_aux]
  simp

theorem length_counterItems {α : Type} [DecidableEq α] (data : List α) :
    (counterItems data).length = data.toFinset.card := by
  have h1 : (counterItems data).length = (firstOccs data).length := by
    rw [← map_fst_counterItems, List.length_map]
  have h2 : (firstOccs data).toFinset = data.toFinset := by
    ext y
    simp [List.mem_toFinset, mem_firstOccs]
  rw [h1, ← List.toFinset_card_of_nodup (nodup_firstOccs data), h2]

/-- C3: `most_common k` returns `min k (number of distinct elements)`
pairs, is the `k`-prefix of the stable count-descending sort of the counter
items, that sort is sorted by count descending and keeps every count class
in its original (first-occurrence) order, the counter items themselves list
elements in first-occurrence order; and on `abracadabra`, `most_common 2`
is `a` with count 5 then `b` with count 2 (the tie between `b` and `r` goes
to `b`, which occurs first). -/
theorem c3_mostCommon_top_k {α : Type} [DecidableEq α] (data : List α) (k : Nat) :
    ((mostCommon k data).length = min k data.toFinset.card
      ∧ mostCommon k data = (sortDesc (counterItems data)).take k
      ∧ List.Sorted (fun p q : α × Nat => q.2 ≤ p.2) (sortDesc (counterItems data))
      ∧ (∀ c : Nat, (sortDesc (counterItems data)).filter (fun q => decide (q.2 = c))
            = (counterItems data).filter (fun q => decide (q.2 = c)))
      ∧ (counterItems data).map Prod.fst = firstOccs data)
    ∧ mostCommon 2 (String.toList "abracadabra") = [('a', 5), ('b', 2)] := by
  refine ⟨⟨?_, rfl, sorted_sortDesc _, fun c => filter_sortDesc c _,
    map_fst_counterItems data⟩, by decide⟩
  rw [mostCommon, List.length_take, length_sortDesc, length_counterItems]

/-! ## DefaultingGroupingMap (`defaultdict`, exercised by `build_index`) -/

theorem alookup_append_self {K V : Type} [DecidableEq K]
    (k : K) (v : V) (m : List (K × V)) (h : alookup k m = none) :
    alookup k (m ++ [(k, v)]) = some v := by
  induction m with
  | nil => simp [alookup]
  | cons p t ih =>
    by_cases hp : p.1 = k
    · rw [alookup, if_pos hp] at h
      exact absurd h (by simp)
    · rw [alookup, if_neg hp] at h
      simpa [alookup, hp] using ih h

theorem alookup_append_other {K V : Type} [DecidableEq K]
    (g k : K) (v : V) (m : List (K × V)) (hg : g ≠ k) :
    alookup g (m ++ [(k, v)]) = alookup g m := by
  induction m with
  | nil => simp [alookup, Ne.symm hg]
  | cons p t ih =>
    by_cases hp : p.1 = g
    · simp [alookup, hp]
    · simpa [alookup, hp] using ih

/-- `defaultdict` read `d[k]` whose factory yields `dflt` (in `build_index`
the factory is `list`, so `dflt` is the empty list): a present key returns
its stored value and leaves the dict alone; a missing key stores the
factory result under the key (appended in insertion order) and returns
it. -/
def dgGet {K V : Type} [DecidableEq K] (dflt : V) (k : K) (m : List (K × V)) :
    V × List (K × V) :=
  match alookup k m with
  | some v => (v, m)
  | none => (dflt, m ++ [(k, dflt)])

/-- One iteration of the `build_index` loop: `grouped[k].append(v)` reads
`grouped[k]` (materialising `[]` when the key is absent) and stores the
extended list back under the key. -/
def buildStep {K V : Type} [DecidableEq K] (m : List (K × List V)) (kv : K × V) :
    List (K × List V) :=
  setKey kv.1 ((dgGet [] kv.1 m).1 ++ [kv.2]) (dgGet [] kv.1 m).2

/-- `build_index(pairs)`: groups values by key via a `defaultdict(list)`. -/
def build_index {K V : Type} [DecidableEq K] (pairs : List (K × V)) :
    List (K × List V) :=
  pairs.foldl buildStep []

/-- C5: a `defaultdict` read on a present key returns the stored value
without touching the dict; on an absent key it invokes the factory, stores
the result under the key, and returns it (afterwards the key reads back as
the factory result); and grouping the input pairs a1 b2 a3 b4 c5 through
`build_index` yields exactly a maps-to 1,3 / b maps-to 2,4 / c maps-to 5,
each key's values in input order. -/
theorem c5_defaultdict_grouping {K V : Type} [DecidableEq K]
    (dflt : V) (k : K) (m : List (K × V)) :
    (∀ v, alookup k m = some v → dgGet dflt k m = (v, m))
    ∧ (alookup k m = none →
        dgGet dflt k m = (dflt, m ++ [(k, dflt)])
          ∧ alookup k (m ++ [(k, dflt)]) = some dflt)
    ∧ build_index [("a", (1 : Nat)), ("b", 2), ("a", 3), ("b", 4), ("c", 5)]
        = [("a", [1, 3]), ("b", [2, 4]), ("c", [5])] := by
  refine ⟨?_, ?_, by decide⟩
  · intro v hv
    simp [dgGet, hv]
  · intro h
    exact ⟨by simp [dgGet, h], alookup_append_self k dflt m h⟩

/-- Witness for C5: reading the absent key `c` of a concrete grouping dict
materialises and returns the empty list. -/
theorem c5_witness :
    dgGet ([] : List Nat) "c" [("a", [1, 3]), ("b", [2, 4])]
        = ([], [("a", [1, 3]), ("b", [2, 4])] ++ [("c", [])])
      ∧ alookup "c" ([("a", [1, 3]), ("b", [2, 4])] ++ [("c", ([] : List Nat))])
        = some [] :=
  (c5_defaultdict_grouping ([] : List Nat) "c" [("a", [1, 3]), ("b", [2, 4])]).2.1
    (by decide)

/-! ## OrderedReorderableMap (`OrderedDict`, exercised by
`ordered_dict_example`) -/

/-- Removes the entry with the given key (an `OrderedDict` holds at most
one entry per key). -/
def eraseKey {K V : Type} [DecidableEq K] (k : K) : List (K × V) → List (K × V)
  | [] => []
  | p :: t => if p.1 = k then eraseKey k t else p :: eraseKey k t

/-- `OrderedDict.move_to_end(key, last=False)`: relocates an existing key
to the front, keeping its value; `none` models the `KeyError` raised for
an absent key before any reordering happens. -/
def moveToFront {K V : Type} [DecidableEq K] (k : K) (m : List (K × V)) :
    Option (List (K × V)) :=
  match alookup k m with
  | none => none
  | some v => some ((k, v) :: eraseKey k m)

/-- `OrderedDict.move_to_end(key)` with the default `last=True`: relocates
an existing key to the back, keeping its value; `none` models the
`KeyError` for an absent key. -/
def moveToBack {K V : Type} [DecidableEq K] (k : K) (m : List (K × V)) :
    Option (List (K × V)) :=
  match alookup k m with
  | none => none
  | some v => some (eraseKey k m ++ [(k, v)])

/-- The `OrderedDict` built by `ordered_dict_example` before relocation:
first 1, second 2, third 3, in insertion order. -/
def orderedExample : List (String × Nat) :=
  [("first", 1), ("second", 2), ("third", 3)]

theorem alookup_eraseKey_self {K V : Type} [DecidableEq K]
    (k : K) (m : List (K × V)) : alookup k (eraseKey k m) = none := by
  induction m with
  | nil => rfl
  | cons p t ih =>
    by_cases hp : p.1 = k
    · simpa [eraseKey, hp] using ih
    · simpa [eraseKey, alookup, hp] using ih

theorem alookup_eraseKey_other {K V : Type} [DecidableEq K]
    (g k : K) (m : List (K × V)) (hg : g ≠ k) :
    alookup g (eraseKey k m) = alookup g m := by
  induction m with
  | nil => rfl
  | cons p t ih =>
    by_cases hp : p.1 = k
    · have hpg : ¬ p.1 = g := fun h => hg (h ▸ hp)
      simp only [eraseKey, if_pos hp, alookup, if_neg hpg]
      exact ih
    · by_cases hpg : p.1 = g
      · simp only [eraseKey, if_neg hp, alookup, if_pos hpg]
      · simp only [eraseKey, if_neg hp, alookup, if_neg hpg]
        exact ih

/-- C7: a successful `moveToFront` rewrites the map to the moved entry
followed by the rest, a successful `moveToBack` to the rest followed by
the moved entry; neither changes any key's stored value; and on the map
first/second/third the relocation chain `moveToFront "first"` then
`moveToBack "third"` succeeds and yields the keys in the order first,
second, third with all three values intact. -/
theorem c7_ordered_relocate {K V : Type} [DecidableEq K]
    (m m2 : List (K × V)) (k : K) :
    (moveToFront k m = some m2 →
        (∃ v, alookup k m = some v ∧ m2 = (k, v) :: eraseKey k m)
        ∧ alookup k m2 = alookup k m
        ∧ ∀ g, g ≠ k → alookup g m2 = alookup g m)
    ∧ (moveToBack k m = some m2 →
        (∃ v, alookup k m = some v ∧ m2 = eraseKey k m ++ [(k, v)])
        ∧ alookup k m2 = alookup k m
        ∧ ∀ g, g ≠ k → alookup g m2 = alookup g m)
    ∧ ((moveToFront "first" orderedExample).bind (moveToBack "third")
          = some orderedExample
        ∧ orderedExample.map Prod.fst = ["first", "second", "third"]) := by
  refine ⟨?_, ?_, by decide, by decide⟩
  · intro h
    rw [moveToFront] at h
    cases hv : alookup k m with
    | none => rw [hv] at h; exact absurd h (by simp)
    | some v =>
      rw [hv] at h
      have hm2 : m2 = (k, v) :: eraseKey k m := by
        simpa using h.symm
      refine ⟨⟨v, rfl, hm2⟩, ?_, ?_⟩
      · rw [hm2]; simp [alookup]
      · intro g hg
        rw [hm2]
        have hkg : ¬ k = g := fun h2 => hg h2.symm
        simp [alookup, hkg, alookup_eraseKey_other g k m hg]
  · intro h
    rw [moveToBack] at h
    cases hv : alookup k m with
    | none => rw [hv] at h; exact absurd h (by simp)
    | some v =>
      rw [hv] at h
      have hm2 : m2 = eraseKey k m ++ [(k, v)] := by
        simpa using h.symm
      refine ⟨⟨v, rfl, hm2⟩, ?_, ?_⟩
      · rw [hm2]
        exact alookup_append_self k v (eraseKey k m) (alookup_eraseKey_self k m)
      · intro g hg
        rw [hm2, alookup_append_other g k v (eraseKey k m) hg]
        exact alookup_eraseKey_other g k m hg

/-- Witness for C7: relocating `second` to the front of the example map
succeeds, and the theorem recovers the moved entry and the untouched
values. -/
theorem c7_witness :
    (∃ v, alookup "second" orderedExample = some v
        ∧ [("second", 2), ("first", 1), ("third", 3)]
            = ("second", v) :: eraseKey "second" orderedExample)
      ∧ alookup "second" [("second", 2), ("first", 1), ("third", 3)]
          = alookup "second" orderedExample
      ∧ ∀ g, g ≠ "second" →
          alookup g [("second", 2), ("first", 1), ("third", 3)]
            = alookup g orderedExample :=
  (c7_ordered_relocate orderedExample
      [("second", 2), ("first", 1), ("third", 3)] "second").1 (by decide)

/-- C8: relocating an absent key fails with `KeyNotFoundError` (`none`) in
both directions; the embedding is pure, so the failed call yields no
successor state and the caller's map is exactly its pre-call value. -/
theorem c8_relocate_missing_key {K V : Type} [DecidableEq K]
    (m : List (K × V)) (k : K) (h : alookup k m = none) :
    moveToFront k m = none ∧ moveToBack k m = none := by
  rw [moveToFront, moveToBack, h]
  exact ⟨rfl, rfl⟩

/-- Witness for C8: the key `missing` is absent from the example map and
both relocations fail on it. -/
theorem c8_witness :
    moveToFront "missing" orderedExample = none
      ∧ moveToBack "missing" orderedExample = none :=
  c8_relocate_missing_key orderedExample "missing" (by decide)

/-! ## TwoEndedQueue (`deque`, exercised by `demo_deque_operations`) -/

/-- Modelled from the spec: a TwoEndedQueue with O(1) amortized push/pop at
both ends (the source only calls the stdlib deque through
`append`/`appendleft`/`pop`/`popleft`; the deque implementation itself is
not part of the repository). The classic two-list realisation keeps a
front list and a reversed back list; the held sequence, front to back, is
`front ++ back.reverse`. -/
structure TwoEndedQueue (α : Type) where
  front : List α
  back : List α

/-- The front-to-back contents of the queue. -/
def TwoEndedQueue.toList {α : Type} (q : TwoEndedQueue α) : List α :=
  q.front ++ q.back.reverse

/-- `append(x)`: push at the back. -/
def pushBack {α : Type} (x : α) (q : TwoEndedQueue α) : TwoEndedQueue α :=
  ⟨q.front, x :: q.back⟩

/-- `appendleft(x)`: push at the front. -/
def pushFront {α : Type} (x : α) (q : TwoEndedQueue α) : TwoEndedQueue α :=
  ⟨x :: q.front, q.back⟩

/-- `pop()`: removes the back element; popping an empty deque raises
`EmptyQueueError` and leaves the queue unchanged. -/
def popBack {α : Type} (q : TwoEndedQueue α) : TwoEndedQueue α :=
  match q.back with
  | _ :: bs => ⟨q.front, bs⟩
  | [] => ⟨q.front.dropLast, []⟩

/-- `popleft()`: removes the front element; popping an empty deque raises
`EmptyQueueError` and leaves the queue unchanged. -/
def popFront {α : Type} (q : TwoEndedQueue α) : TwoEndedQueue α :=
  match q.front with
  | _ :: fs => ⟨fs, q.back⟩
  | [] => ⟨[], q.back.dropLast⟩

/-- One push/pop operation on a double-ended queue. -/
inductive DOp (α : Type) where
  | pushF : α → DOp α
  | pushB : α → DOp α
  | popF : DOp α
  | popB : DOp α

/-- Runs one operation on the two-list queue. -/
def applyOp {α : Type} (q : TwoEndedQueue α) : DOp α → TwoEndedQueue α
  | DOp.pushF x => pushFront x q
  | DOp.pushB x => pushBack x q
  | DOp.popF => popFront q
  | DOp.popB => popBack q

/-- Runs a sequence of operations on the two-list queue. -/
def runOps {α : Type} (q : TwoEndedQueue α) (ops : List (DOp α)) : TwoEndedQueue α :=
  ops.foldl applyOp q

/-- Modelled from the spec: one operation of the reference naive
double-ended list the spec compares against (push appends at an end, pop
drops an end, popping an empty list changes nothing). -/
def refApply {α : Type} (l : List α) : DOp α → List α
  | DOp.pushF x => x :: l
  | DOp.pushB x => l ++ [x]
  | DOp.popF => l.tail
  | DOp.popB => l.dropLast

/-- Runs a sequence of operations on the reference naive list. -/
def refRun {α : Type} (l : List α) (ops : List (DOp α)) : List α :=
  ops.foldl refApply l

theorem toList_applyOp {α : Type} (q : TwoEndedQueue α) (op : DOp α) :
    (applyOp q op).toList = refApply q.toList op := by
  cases op with
  | pushF x => simp [applyOp, pushFront, refApply, TwoEndedQueue.toList]
  | pushB x =>
    simp [applyOp, pushBack, refApply, TwoEndedQueue.toList, List.append_assoc]
  | popF =>
    cases hf : q.front with
    | cons f fs => simp [applyOp, popFront, hf, refApply, TwoEndedQueue.toList]
    | nil =>
      simp [applyOp, popFront, hf, refApply, TwoEndedQueue.toList,
        List.tail_reverse_eq_reverse_dropLast]
  | popB =>
    cases hb : q.back with
    | cons b bs =>
      simp only [applyOp, popBack, hb, refApply, TwoEndedQueue.toList,
        List.reverse_cons, ← List.append_assoc]
      rw [List.dropLast_concat]
    | nil => simp [applyOp, popBack, hb, refApply, TwoEndedQueue.toList]

/-- C6: the two-list TwoEndedQueue refines the reference double-ended
list: any operation sequence run on the queue leaves, front to back,
exactly the contents the naive list model produces; and the source demo
(start from 1,2,3; pushBack 4; pushFront 0; popBack; popFront) ends at
exactly 1,2,3. -/
theorem c6_deque_refines_list {α : Type} (ops : List (DOp α)) (q : TwoEndedQueue α) :
    (runOps q ops).toList = refRun q.toList ops
    ∧ (runOps (⟨[1, 2, 3], []⟩ : TwoEndedQueue Nat)
          [DOp.pushB 4, DOp.pushF 0, DOp.popB, DOp.popF]).toList = [1, 2, 3] := by
  refine ⟨?_, by decide⟩
  induction ops generalizing q with
  | nil => rfl
  | cons op t ih =>
    show (runOps (applyOp q op) t).toList = refRun (refApply q.toList op) t
    rw [ih (applyOp q op), toList_applyOp]

/-- Modelled from the spec: the bounded TwoEndedQueue (the source never
builds a bounded deque; the spec fixes a capacity C of at least one, with
a push at capacity evicting exactly one element from the end opposite the
insertion end before inserting, silently). Contents are stored front to
back. -/
structure BQueue (α : Type) where
  cap : Nat
  elems : List α

/-- Bounded push at the back: at capacity the front element is evicted
first. -/
def bPushBack {α : Type} (x : α) (q : BQueue α) : BQueue α :=
  if q.elems.length < q.cap then ⟨q.cap, q.elems ++ [x]⟩
  else ⟨q.cap, q.elems.tail ++ [x]⟩

/-- Bounded push at the front: at capacity the back element is evicted
first. -/
def bPushFront {α : Type} (x : α) (q : BQueue α) : BQueue α :=
  if q.elems.length < q.cap then ⟨q.cap, x :: q.elems⟩
  else ⟨q.cap, x :: q.elems.dropLast⟩

/-- Bounded pop at the back; popping an empty queue fails and changes
nothing. -/
def bPopBack {α : Type} (q : BQueue α) : BQueue α :=
  ⟨q.cap, q.elems.dropLast⟩

/-- Bounded pop at the front; popping an empty queue fails and changes
nothing. -/
def bPopFront {α : Type} (q : BQueue α) : BQueue α :=
  ⟨q.cap, q.elems.tail⟩

/-- Runs one operation on the bounded queue. -/
def bApply {α : Type} (q : BQueue α) : DOp α → BQueue α
  | DOp.pushF x => bPushFront x q
  | DOp.pushB x => bPushBack x q
  | DOp.popF => bPopFront q
  | DOp.popB => bPopBack q

/-- Runs a sequence of operations on the bounded queue. -/
def bRun {α : Type} (q : BQueue α) (ops : List (DOp α)) : BQueue α :=
  ops.foldl bApply q

theorem bApply_cap_length {α : Type} (q : BQueue α) (op : DOp α)
    (hcap : 1 ≤ q.cap) (hlen : q.elems.length ≤ q.cap) :
    (bApply q op).cap = q.cap ∧ (bApply q op).elems.length ≤ q.cap := by
  cases op with
  | pushF x =>
    by_cases h : q.elems.length < q.cap
    · refine ⟨by simp [bApply, bPushFront, if_pos h], ?_⟩
      simp only [bApply, bPushFront, if_pos h, List.length_cons]
      omega
    · refine ⟨by simp [bApply, bPushFront, if_neg h], ?_⟩
      simp only [bApply, bPushFront, if_neg h, List.length_cons, List.length_dropLast]
      omega
  | pushB x =>
    by_cases h : q.elems.length < q.cap
    · refine ⟨by simp [bApply, bPushBack, if_pos h], ?_⟩
      simp only [bApply, bPushBack, if_pos h, List.length_append,
        List.length_singleton]
      omega
    · refine ⟨by simp [bApply, bPushBack, if_neg h], ?_⟩
      simp only [bApply, bPushBack, if_neg h, List.length_append, List.length_tail,
        List.length_singleton]
      omega
  | popF =>
    refine ⟨rfl, ?_⟩
    simp only [bApply, bPopFront, List.length_tail]
    omega
  | popB =>
    refine ⟨rfl, ?_⟩
    simp only [bApply, bPopBack, List.length_dropLast]
    omega

theorem bRun_cap_length {α : Type} (ops : List (DOp α)) (q : BQueue α)
    (hcap : 1 ≤ q.cap) (hlen : q.elems.length ≤ q.cap) :
    (bRun q ops).cap = q.cap ∧ (bRun q ops).elems.length ≤ q.cap := by
  induction ops generalizing q with
  | nil => exact ⟨rfl, hlen⟩
  | cons op t ih =>
    have h1 := bApply_cap_length q op hcap hlen
    have h2 := ih (bApply q op) (h1.1 ▸ hcap) (h1.1 ▸ h1.2)
    show (bRun (bApply q op) t).cap = q.cap ∧ (bRun (bApply q op) t).elems.length ≤ q.cap
    rw [h2.1, h1.1]
    exact ⟨rfl, h1.1 ▸ h2.2⟩

/-- C4: on a bounded queue of capacity at least one, no operation sequence
ever drives the length above the capacity; a push performed exactly at
capacity evicts one element from the opposite end (front for a back push,
back for a front push) and inserts, leaving the length at capacity with no
error; and with capacity 3, pushing 1, 2, 3, 4 at the back leaves the
contents 2, 3, 4 front to back. -/
theorem c4_bounded_capacity {α : Type} (ops : List (DOp α)) (q : BQueue α) (x : α)
    (hcap : 1 ≤ q.cap) (hlen : q.elems.length ≤ q.cap) :
    (bRun q ops).elems.length ≤ q.cap
    ∧ (q.elems.length = q.cap →
        (bPushBack x q).elems = q.elems.tail ++ [x]
          ∧ (bPushFront x q).elems = x :: q.elems.dropLast
          ∧ (bPushBack x q).elems.length = q.cap
          ∧ (bPushFront x q).elems.length = q.cap)
    ∧ (bRun (⟨3, []⟩ : BQueue Nat)
          [DOp.pushB 1, DOp.pushB 2, DOp.pushB 3, DOp.pushB 4]).elems = [2, 3, 4] := by
  refine ⟨(bRun_cap_length ops q hcap hlen).2, ?_, by decide⟩
  intro hfull
  have hnot : ¬ q.elems.length < q.cap := by omega
  have hne : q.elems ≠ [] := by
    intro h0
    rw [h0] at hfull
    simp at hfull
    omega
  refine ⟨by simp [bPushBack, if_neg hnot], by simp [bPushFront, if_neg hnot], ?_, ?_⟩
  · simp only [bPushBack, if_neg hnot, List.length_append, List.length_tail,
      List.length_singleton]
    omega
  · simp only [bPushFront, if_neg hnot, List.length_cons, List.length_dropLast]
    omega

/-- Witness for C4: a back push on a full capacity-3 queue holding 1, 2, 3
keeps the length at 3 and evicts the front element. -/
theorem c4_witness :
    (bRun (⟨3, [1, 2, 3]⟩ : BQueue Nat) [DOp.pushB 9]).elems.length ≤ 3
    ∧ (bPushBack 9 (⟨3, [1, 2, 3]⟩ : BQueue Nat)).elems = [1, 2, 3].tail ++ [9]
    ∧ (bPushBack 9 (⟨3, [1, 2, 3]⟩ : BQueue Nat)).elems.length = 3 :=
  ⟨(c4_bounded_capacity [DOp.pushB 9] ⟨3, [1, 2, 3]⟩ 9 (by decide) (by decide)).1,
   ((c4_bounded_capacity [DOp.pushB 9] ⟨3, [1, 2, 3]⟩ 9 (by decide) (by decide)).2.1
      (by decide)).1,
   ((c4_bounded_capacity [DOp.pushB 9] ⟨3, [1, 2, 3]⟩ 9 (by decide) (by decide)).2.1
      (by decide)).2.2.1⟩

/-! ## RecordTuple (`namedtuple`, the `Point` of `create_point`) -/

/-- The `Point` namedtuple declared by `Point = namedtuple("Point", "x y")`:
an immutable record with the two fields `x` and `y`. -/
structure Point where
  x : Int
  y : Int

/-- The declared field names of `Point`, in declaration order. -/
def pointFields : List String := ["x", "y"]

/-- Field access by name; `none` models the failure on an unknown field
name. -/
def Point.get (p : Point) (f : String) : Option Int :=
  if f = "x" then some p.x else if f = "y" then some p.y else none

/-- `Point._replace`: returns a new point with the named field substituted,
leaving the original untouched; `none` models the error raised for an
unknown field name. -/
def Point.replaceField (p : Point) (f : String) (v : Int) : Option Point :=
  if f = "x" then some ⟨v, p.y⟩ else if f = "y" then some ⟨p.x, v⟩ else none

/-- `create_point(x, y)` builds the namedtuple instance. -/
def create_point (x y : Int) : Point := ⟨x, y⟩

/-- C9: replacing a declared field succeeds and produces a new record that
holds the new value at that field and the original's value at every other
declared field, the original record being a pure value is untouched (its
reads are unchanged); replacing an unknown field fails; and on the
source's point 5 7, `_replace` of `x` by 10 yields the point 10 7 while
the original still reads 5 at `x`. -/
theorem c9_replace_one_field (p : Point) (f : String) (v : Int) :
    (f ∈ pointFields →
        ∃ p2, p.replaceField f v = some p2
          ∧ p2.get f = some v
          ∧ ∀ g ∈ pointFields, g ≠ f → p2.get g = p.get g)
    ∧ (f ∉ pointFields → p.replaceField f v = none)
    ∧ ((create_point 5 7).replaceField "x" 10 = some (create_point 10 7)
        ∧ (create_point 5 7).get "x" = some 5) := by
  refine ⟨?_, ?_, rfl, rfl⟩
  · intro hf
    rcases (by simpa [pointFields] using hf : f = "x" ∨ f = "y") with hf | hf
    · subst hf
      refine ⟨⟨v, p.y⟩, by simp [Point.replaceField], by simp [Point.get], ?_⟩
      intro g hg hgf
      rcases (by simpa [pointFields] using hg : g = "x" ∨ g = "y") with hg | hg
      · exact absurd hg hgf
      · subst hg; simp [Point.get]
    · subst hf
      refine ⟨⟨p.x, v⟩, by simp [Point.replaceField], by simp [Point.get], ?_⟩
      intro g hg hgf
      rcases (by simpa [pointFields] using hg : g = "x" ∨ g = "y") with hg | hg
      · subst hg; simp [Point.get]
      · exact absurd hg hgf
  · intro hf
    have hx : ¬ f = "x" := fun h => hf (by simp [pointFields, h])
    have hy : ¬ f = "y" := fun h => hf (by simp [pointFields, h])
    simp [Point.replaceField, hx, hy]

/-- Witness for C9: replacing field `x` of the point 5 7 by 10 produces a
record reading 10 at `x` and the original 7 at `y`. -/
theorem c9_witness :
    ∃ p2, (create_point 5 7).replaceField "x" 10 = some p2
      ∧ p2.get "x" = some 10
      ∧ ∀ g ∈ pointFields, g ≠ "x" → p2.get g = (create_point 5 7).get g :=
  (c9_replace_one_field (create_point 5 7) "x" 10).1 (by decide)

/-! ## The `log` decorator of `decorators.py` -/

/-- A Python function value as the decorator demo observes it: its
`__name__`, its `__doc__`, and its behaviour, returning the result paired
with the lines it prints. -/
structure PyFunc (α β : Type) where
  name : String
  doc : Option String
  call : α → β × List String

/-- The `log` decorator: `functools.wraps` copies the metadata (`__name__`
and `__doc__`) of the wrapped function onto the wrapper, and the wrapper
prints `Calling: <name>` and then returns exactly what the wrapped
function returns. -/
def log {α β : Type} (f : PyFunc α β) : PyFunc α β :=
  ⟨f.name, f.doc,
    fun a => ((f.call a).1, (String.append "Calling: " f.name) :: (f.call a).2)⟩

/-- The source's `greet`: prints a greeting, has no docstring, and is
decorated with `log`. -/
def greet : PyFunc String Unit :=
  ⟨"greet", none, fun n => ((), [String.append "Hello, " n])⟩

/-- C10: the decorated function returns exactly the wrapped function's
value on every argument, only prepending the `Calling:` line to the
output, and `functools.wraps` preserves the metadata: name and docstring
of `log f` equal those of `f`; in particular the decorated `greet` keeps
the name `greet`. -/
theorem c10_log_preserves (α β : Type) (f : PyFunc α β) (a : α) :
    (((log f).call a).1 = (f.call a).1
      ∧ ((log f).call a).2 = String.append "Calling: " f.name :: (f.call a).2
      ∧ (log f).name = f.name
      ∧ (log f).doc = f.doc)
    ∧ (log greet).name = "greet" :=
  ⟨⟨rfl, rfl, rfl, rfl⟩, rfl⟩

end PyColl
